import Mathlib

set_option maxRecDepth 65536

/-!
A verification development for a candidate-analysis scraper/parser repository.

The repository's extraction engine (resume_parser.py, portfolio_scraper.py,
candidate_analyzer.py) is shallowly embedded here.  Python strings are
modelled as `List Char` (ASCII-focused: the regex class `\w` is modelled as
alphanumeric-or-underscore and Python whitespace as the six ASCII whitespace
characters), bytes as `List Nat`, Python `None`-able values as `Option`,
raised exceptions as `Except` with the exception's message string, and the
float `len(sources)/3.0` as the rational `len(sources)/3`.  The external
document decoders (pdfplumber / python-docx) are not part of the repository;
`parse_resume` is therefore parameterised by two oracle functions standing
for `extract_text_from_pdf` / `extract_text_from_docx`.  The wall-clock value
`datetime.now().isoformat()` is passed in as an explicit `now` argument.
-/

/-- Python whitespace test for the ASCII whitespace characters
(space, tab, newline, carriage return, vertical tab, form feed). -/
def isWs (c : Char) : Bool :=
  c == ' ' || c == '\t' || c == '\n' || c == '\r' || c == '\x0b' || c == '\x0c'

/-- The regex class `\w` (word character), ASCII model: letters, digits, underscore. -/
def isWordChar (c : Char) : Bool :=
  c.isAlphanum || c == '_'

/-- Python `str.lower()` (per-character, ASCII model). -/
def pyLower (s : List Char) : List Char :=
  s.map Char.toLower

/-- Does `hay` start with `needle`? -/
def listStartsWith : List Char → List Char → Bool
  | [], _ => true
  | _ :: _, [] => false
  | a :: as, b :: bs => a == b && listStartsWith as bs

/-- Strip the literal `needle` from the front of `hay`, returning the rest. -/
def stripPref : List Char → List Char → Option (List Char)
  | [], s => some s
  | _ :: _, [] => none
  | a :: as, b :: bs => if a == b then stripPref as bs else none

/-- Case-insensitive variant of `stripPref` (for `(?i)` regex literals). -/
def stripPrefCI : List Char → List Char → Option (List Char)
  | [], s => some s
  | _ :: _, [] => none
  | a :: as, b :: bs => if a.toLower == b.toLower then stripPrefCI as bs else none

/-- Python substring test `needle in hay`. -/
def pyContains : List Char → List Char → Bool
  | n, [] => n.isEmpty
  | n, c :: t => listStartsWith n (c :: t) || pyContains n t

/-- Python `str.endswith`. -/
def pyEndsWith (s suffix : List Char) : Bool :=
  listStartsWith suffix.reverse s.reverse

/-- Python `str.strip()` (whitespace from both ends). -/
def pyStrip (s : List Char) : List Char :=
  ((s.dropWhile (fun c => isWs c)).reverse.dropWhile (fun c => isWs c)).reverse

/-- Python `str.lstrip(chars)`: drop leading characters belonging to `chars`. -/
def pyLStrip (chars : List Char) (s : List Char) : List Char :=
  s.dropWhile (fun c => chars.contains c)

/-- Length of the maximal prefix of `s` whose characters satisfy `p`
(the greedy match length of a regex character-class repetition). -/
def countWhile (p : Char → Bool) : List Char → Nat
  | [] => 0
  | c :: t => if p c then countWhile p t + 1 else 0

/-- Worker for `pySplitW`: Python `str.split()` with the current
(reversed) in-progress token as accumulator. -/
def pySplitGo (cur : List Char) : List Char → List (List Char)
  | [] => if cur.isEmpty then [] else [cur.reverse]
  | c :: t =>
    if isWs c then
      if cur.isEmpty then pySplitGo [] t else cur.reverse :: pySplitGo [] t
    else pySplitGo (c :: cur) t

/-- Python `str.split()` (no argument): split on runs of whitespace,
discarding empty tokens. -/
def pySplitW (s : List Char) : List (List Char) :=
  pySplitGo [] s

/-- Python `' '.join(tokens)`. -/
def joinSp : List (List Char) → List Char
  | [] => []
  | [t] => t
  | t :: ts => t ++ ' ' :: joinSp ts

/-- Python `str.split(sep)` for a single-character separator
(keeps empty parts, as Python does). -/
def pySplitOn (sep : Char) : List Char → List (List Char)
  | [] => [[]]
  | c :: t =>
    if c == sep then [] :: pySplitOn sep t
    else
      match pySplitOn sep t with
      | [] => [[c]]
      | x :: xs => (c :: x) :: xs

/-- Worker for `pySplitOnStr`; the fuel (structurally decreasing, at least
the string length plus one) only serves termination and is never
exhausted. -/
def pySplitOnStrGo (sep : List Char) : Nat → List Char → List (List Char)
  | 0, s => [s]
  | _ + 1, [] => [[]]
  | fuel + 1, c :: t =>
    if ¬sep.isEmpty ∧ listStartsWith sep (c :: t) = true then
      [] :: pySplitOnStrGo sep fuel ((c :: t).drop sep.length)
    else
      match pySplitOnStrGo sep fuel t with
      | [] => [[c]]
      | x :: xs => (c :: x) :: xs

/-- Python `str.split(sep)` for a (non-empty) string separator:
non-overlapping left-to-right splitting, keeping empty parts. -/
def pySplitOnStr (sep : List Char) (s : List Char) : List (List Char) :=
  pySplitOnStrGo sep (s.length + 1) s

/-- Worker for `dedupFirst`, carrying the set of already-seen elements. -/
def dedupGo (seen : List (List Char)) : List (List Char) → List (List Char)
  | [] => []
  | x :: t =>
    if seen.contains x then dedupGo seen t
    else x :: dedupGo (x :: seen) t

/-- Remove duplicates from a list, keeping the first occurrence of each
element (models building up a Python `set`). -/
def dedupFirst (l : List (List Char)) : List (List Char) :=
  dedupGo [] l

/-- Python string `<` (lexicographic comparison by code point). -/
def lexLt : List Char → List Char → Bool
  | [], [] => false
  | [], _ :: _ => true
  | _ :: _, [] => false
  | a :: as, b :: bs =>
    if a.val < b.val then true
    else if b.val < a.val then false
    else lexLt as bs

/-- Insert into an ascending list (for `sorted()`). -/
def insertLex (x : List Char) : List (List Char) → List (List Char)
  | [] => [x]
  | y :: t => if lexLt y x then y :: insertLex x t else x :: y :: t

/-- Python `sorted()` on a list of strings (insertion sort). -/
def sortLex : List (List Char) → List (List Char)
  | [] => []
  | x :: t => insertLex x (sortLex t)

/-- Word-character test on an optional character (absent = non-word),
for computing regex `\b` word boundaries at string edges. -/
def isWordOpt : Option Char → Bool
  | none => false
  | some c => isWordChar c

/-- Regex `\b`: a word boundary lies between two adjacent positions iff
exactly one of them holds a word character. -/
def wordBoundary (a b : Option Char) : Bool :=
  isWordOpt a != isWordOpt b

namespace ResumeParser

/-- The repository's `common_skills` vocabulary, transcribed in source order
(duplicates included, as in the source). -/
def common_skills : List (List Char) :=
  [ "Python".data, "Java".data, "JavaScript".data, "TypeScript".data, "C++".data,
    "C#".data, "Ruby".data, "PHP".data, "Go".data, "Rust".data, "Swift".data,
    "Kotlin".data, "HTML".data, "CSS".data, "SQL".data, "NoSQL".data, "GraphQL".data,
    "R".data, "MATLAB".data, "Scala".data, "Perl".data, "Shell".data, "Bash".data,
    "PowerShell".data,
    "React".data, "Angular".data, "Vue".data, "Node.js".data, "Express".data,
    "Django".data, "Flask".data, "Spring".data, "Laravel".data, "ASP.NET".data,
    "jQuery".data, "Bootstrap".data, "Tailwind CSS".data, "SASS".data, "LESS".data,
    "Webpack".data, "Babel".data, "npm".data, "Yarn".data, "REST".data, "SOAP".data,
    "WebSocket".data,
    "MySQL".data, "PostgreSQL".data, "MongoDB".data, "Redis".data,
    "Elasticsearch".data, "Cassandra".data, "Oracle".data, "SQL Server".data,
    "DynamoDB".data, "Firebase".data, "CouchDB".data, "Neo4j".data,
    "AWS".data, "Azure".data, "GCP".data, "Digital Ocean".data, "Heroku".data,
    "Vercel".data, "Netlify".data, "Lambda".data, "EC2".data, "S3".data, "RDS".data,
    "CloudFront".data, "Route 53".data, "CloudFormation".data,
    "Docker".data, "Kubernetes".data, "Jenkins".data, "Git".data, "GitHub".data,
    "GitLab".data, "Bitbucket".data, "CI/CD".data, "Terraform".data, "Ansible".data,
    "Puppet".data, "Chef".data, "Prometheus".data, "Grafana".data, "ELK Stack".data,
    "Splunk".data, "Jira".data, "Confluence".data, "Trello".data, "Asana".data,
    "Machine Learning".data, "Deep Learning".data, "TensorFlow".data, "PyTorch".data,
    "Keras".data, "Scikit-learn".data, "Pandas".data, "NumPy".data, "SciPy".data,
    "NLTK".data, "SpaCy".data, "OpenCV".data, "Computer Vision".data, "NLP".data,
    "Natural Language Processing".data, "Data Science".data,
    "iOS".data, "Android".data, "React Native".data, "Flutter".data, "Xamarin".data,
    "Swift".data, "Kotlin".data, "Mobile App Development".data, "App Store".data,
    "Google Play".data,
    "Cybersecurity".data, "Network Security".data, "Application Security".data,
    "Cloud Security".data, "Penetration Testing".data,
    "Vulnerability Assessment".data, "SIEM".data, "Firewall".data, "IDS/IPS".data,
    "Cryptography".data, "SSL/TLS".data, "OAuth".data, "JWT".data, "SAML".data,
    "Blockchain".data, "Smart Contracts".data, "Solidity".data, "Ethereum".data,
    "Bitcoin".data, "IoT".data, "Embedded Systems".data, "Arduino".data,
    "Raspberry Pi".data, "Microcontrollers".data, "Game Development".data,
    "Unity".data, "Unreal Engine".data, "3D Modeling".data, "CAD".data,
    "Virtual Reality".data, "Augmented Reality".data, "AR/VR".data ]

/-- Search for the regex `\b<needle>\b` (an escaped literal between word
boundaries) in the text, threading the previous character for the
positional `\b` test.  Used for the first skill pattern
`rf'\b{re.escape(skill_lower)}\b'`. -/
def hasBLit (needle : List Char) : Option Char → List Char → Bool
  | prev, [] =>
    (match stripPref needle [] with
     | some _ => wordBoundary prev none && wordBoundary needle.getLast? none
     | none => false)
  | prev, c :: t =>
    (match stripPref needle (c :: t) with
     | some rest => wordBoundary prev (some c) && wordBoundary needle.getLast? rest.head?
     | none => false) || hasBLit needle (some c) t

/-- One anchored attempt of `\b<w1>\s+<w2>\s+<needle>\b` at the current
position.  The greedy `\s+` runs are exact maximal munch here because the
following literals start with non-whitespace characters. -/
def ctxAttempt (w1 w2 needle : List Char) (prev : Option Char) (s : List Char) : Bool :=
  wordBoundary prev s.head? &&
  (match stripPref w1 s with
   | none => false
   | some r1 =>
     let n1 := countWhile isWs r1
     if n1 == 0 then false
     else
       match stripPref w2 (r1.drop n1) with
       | none => false
       | some r3 =>
         let n2 := countWhile isWs r3
         if n2 == 0 then false
         else
           match stripPref needle (r3.drop n2) with
           | none => false
           | some rest => wordBoundary needle.getLast? rest.head?)

/-- Search for `\b<w1>\s+<w2>\s+<needle>\b` anywhere in the text
(skill patterns 2-5 of `extract_skills`). -/
def hasCtxLit (w1 w2 needle : List Char) : Option Char → List Char → Bool
  | _, [] => false
  | prev, c :: t =>
    ctxAttempt w1 w2 needle prev (c :: t) || hasCtxLit w1 w2 needle (some c) t

/-- The five patterns tried per skill in the first pass of
`extract_skills`; a skill is recorded as soon as one matches. -/
def skillMatchesDirect (skill_lower text_lower : List Char) : Bool :=
  hasBLit skill_lower none text_lower ||
  hasCtxLit "proficient".data "in".data skill_lower none text_lower ||
  hasCtxLit "expert".data "in".data skill_lower none text_lower ||
  hasCtxLit "experienced".data "with".data skill_lower none text_lower ||
  hasCtxLit "knowledge".data "of".data skill_lower none text_lower

/-- The capture class `[\w\s\+#\.]` of the context skill patterns. -/
def isPhraseChar (c : Char) : Bool :=
  isWordChar c || isWs c || c == '+' || c == '#' || c == '.'

/-- One anchored attempt of
`\b(?:<alts1>)\s+(?:<alts2>)\s+([\w\s\+#\.]+)` at the current position,
returning the consumed length and the captured phrase.  Alternatives are
tried in source order; if the greedy second `\s+` leaves no capturable
character, it backs off one character, which the capture class (containing
`\s`) then consumes. -/
def ctxPhraseAt (alts1 alts2 : List (List Char)) (prev : Option Char) (s : List Char) :
    Option (Nat × List Char) :=
  if wordBoundary prev s.head? then
    alts1.findSome? fun a1 =>
      match stripPref a1 s with
      | none => none
      | some r1 =>
        let n1 := countWhile isWs r1
        if n1 == 0 then none
        else
          alts2.findSome? fun a2 =>
            match stripPref a2 (r1.drop n1) with
            | none => none
            | some r3 =>
              let n2 := countWhile isWs r3
              let cap := (r3.drop n2).takeWhile isPhraseChar
              if n2 == 0 then none
              else if !cap.isEmpty then
                some (a1.length + n1 + a2.length + n2 + cap.length, cap)
              else if 2 ≤ n2 then
                some (a1.length + n1 + a2.length + n2,
                  (r3.drop (n2 - 1)).takeWhile isPhraseChar)
              else none
  else none

/-- Worker for `findPhrases` (fuel-based for structural recursion; the
fuel is never exhausted since every match consumes at least one
character). -/
def findPhrasesGo (alts1 alts2 : List (List Char)) :
    Nat → Option Char → List Char → List (List Char)
  | 0, _, _ => []
  | _ + 1, _, [] => []
  | fuel + 1, prev, c :: t =>
    match ctxPhraseAt alts1 alts2 prev (c :: t) with
    | some (n, cap) =>
      if n = 0 then cap :: findPhrasesGo alts1 alts2 fuel (some c) t
      else cap :: findPhrasesGo alts1 alts2 fuel (((c :: t).take n).getLast?)
        ((c :: t).drop n)
    | none => findPhrasesGo alts1 alts2 fuel (some c) t

/-- `re.finditer` for a context skill pattern: scan left to right,
emitting captured phrases of non-overlapping matches. -/
def findPhrases (alts1 alts2 : List (List Char)) (prev : Option Char) (s : List Char) :
    List (List Char) :=
  findPhrasesGo alts1 alts2 (s.length + 1) prev s

/-- `extract_skills`: vocabulary matching (five patterns per skill) plus a
second pass matching each skill against context-pattern captures; the
accumulated set is returned sorted. -/
def extract_skills (text : List Char) : List (List Char) :=
  let text_lower := pyLower text
  let direct := common_skills.filter fun sk => skillMatchesDirect (pyLower sk) text_lower
  let phrases :=
    findPhrases
      ["proficient".data, "expert".data, "skilled".data, "experienced".data,
       "familiar".data, "knowledgeable".data]
      ["in".data, "with".data, "at".data] none text_lower ++
    findPhrases ["experience".data, "knowledge".data, "skills".data]
      ["in".data, "with".data] none text_lower ++
    findPhrases ["worked".data, "developed".data, "built".data, "created".data,
       "implemented".data]
      ["with".data, "using".data] none text_lower ++
    findPhrases ["certified".data, "certification".data]
      ["in".data, "for".data] none text_lower
  let fromPhrases := (phrases.map fun ph =>
    let phl := pyLower (pyStrip ph)
    common_skills.filter fun sk => pyContains (pyLower sk) phl).flatten
  sortLex (dedupFirst (direct ++ fromPhrases))

/-- Worker for `clean_text`'s `re.sub(r'\s+', ' ', text)`: replace each
maximal whitespace run by a single space (the flag records whether we are
inside a run). -/
def collapseGo : Bool → List Char → List Char
  | _, [] => []
  | inWs, c :: t =>
    if isWs c then
      if inWs then collapseGo true t else ' ' :: collapseGo true t
    else c :: collapseGo false t

/-- `clean_text` of resume_parser: collapse whitespace runs to single
spaces, delete characters outside `[\w\s\-\.@]`, and strip. -/
def clean_text (s : List Char) : List Char :=
  pyStrip ((collapseGo false s).filter fun c =>
    isWordChar c || isWs c || c == '-' || c == '.' || c == '@')

/-- The regex class `[A-Za-z0-9._%+-]` (email local part). -/
def localClass (c : Char) : Bool :=
  c.isAlphanum || c == '.' || c == '_' || c == '%' || c == '+' || c == '-'

/-- The regex class `[A-Za-z0-9.-]` (email domain part). -/
def domClass (c : Char) : Bool :=
  c.isAlphanum || c == '.' || c == '-'

/-- The regex class `[A-Z|a-z]` (email top-level part; the literal `|`
inside the class is part of the source pattern). -/
def tldClass (c : Char) : Bool :=
  c.isAlpha || c == '|'

/-- One anchored attempt of
`\b[A-Za-z0-9._%+-]+@[A-Za-z0-9.-]+\.[A-Z|a-z]{2,}\b` at the current
position, returning the match length.  The greedy domain run backtracks to
the last `.` that leaves a tail of at least two class characters ending at
a word boundary. -/
def emailAt (prev : Option Char) (s : List Char) : Option Nat :=
  let l := countWhile localClass s
  if l == 0 then none
  else if !wordBoundary prev s.head? then none
  else
    match s.drop l with
    | '@' :: s2 =>
      let d := countWhile domClass s2
      ((List.range (d + 1)).reverse.filter fun k => 1 ≤ k).findSome? fun k =>
        if s2.get? k == some '.' then
          let s3 := s2.drop (k + 1)
          let tr := countWhile tldClass s3
          ((List.range (tr + 1)).reverse.filter fun m => 2 ≤ m).findSome? fun m =>
            if wordBoundary (s3.get? (m - 1)) (s3.get? m) then
              some (l + 1 + k + 1 + m)
            else none
        else none
    | _ => none

/-- `re.search` scan for the email pattern, returning the matched slice. -/
def emailSearch (prev : Option Char) : List Char → Option (List Char)
  | [] => none
  | c :: t =>
    match emailAt prev (c :: t) with
    | some n => some ((c :: t).take n)
    | none => emailSearch (some c) t

/-- `extract_email`: first match of the email pattern, or `None`. -/
def extract_email (text : List Char) : Option (List Char) :=
  emailSearch none text

/-- The class `[\d\s\-\(\)]` of the first phone pattern. -/
def phoneClass (c : Char) : Bool :=
  c.isDigit || isWs c || c == '-' || c == '(' || c == ')'

/-- Anchored attempt of `\+?[\d\s\-\(\)]{10,}`.  With a leading `+`, the
class run must still reach 10; the backtracking alternative without the
`+` fails because `+` is not in the class. -/
def p1At : List Char → Option Nat
  | '+' :: t =>
    let r := countWhile phoneClass t
    if 10 ≤ r then some (r + 1) else none
  | s =>
    let r := countWhile phoneClass s
    if 10 ≤ r then some r else none

/-- Remainders obtainable by an optional single-character class match
(`X?`), greedier alternative first. -/
def optsChar (p : Char → Bool) (s : List Char) : List (List Char) :=
  match s with
  | c :: t => if p c then [t, c :: t] else [c :: t]
  | [] => [[]]

/-- Consume exactly `n` digits (`\d{n}`). -/
def exactDigits : Nat → List Char → Option (List Char)
  | 0, s => some s
  | _ + 1, [] => none
  | n + 1, c :: t => if c.isDigit then exactDigits n t else none

/-- The separator class `[-.\s]` of the phone patterns. -/
def sepClass (c : Char) : Bool :=
  c == '-' || c == '.' || isWs c

/-- Anchored attempt of
`\+?\d{1,3}[-.\s]?\(?\d{3}\)?[-.\s]?\d{3}[-.\s]?\d{4}` with full
backtracking (greedy alternatives listed first at each step). -/
def p2At (s : List Char) : Option Nat :=
  (optsChar (fun c => c == '+') s).findSome? fun s1 =>
    ([3, 2, 1].filterMap fun n => exactDigits n s1).findSome? fun s2 =>
      (optsChar sepClass s2).findSome? fun s3 =>
        (optsChar (fun c => c == '(') s3).findSome? fun s4 =>
          (exactDigits 3 s4).bind fun s5 =>
            (optsChar (fun c => c == ')') s5).findSome? fun s6 =>
              (optsChar sepClass s6).findSome? fun s7 =>
                (exactDigits 3 s7).bind fun s8 =>
                  (optsChar sepClass s8).findSome? fun s9 =>
                    (exactDigits 4 s9).map fun s10 => s.length - s10.length

/-- Remainders obtainable from greedy `\s*`, most-consumed first. -/
def wsOpts : List Char → List (List Char)
  | [] => [[]]
  | c :: t => if isWs c then wsOpts t ++ [c :: t] else [c :: t]

/-- Anchored attempt of `\(\d{3}\)\s*\d{3}[-.\s]?\d{4}`. -/
def p3At (s : List Char) : Option Nat :=
  ((match s with
    | '(' :: t => some t
    | _ => none) : Option (List Char)).bind fun s1 =>
    (exactDigits 3 s1).bind fun s2 =>
      (((match s2 with
        | ')' :: t => some t
        | _ => none)) : Option (List Char)).bind fun s3 =>
        (wsOpts s3).findSome? fun s4 =>
          (exactDigits 3 s4).bind fun s5 =>
            (optsChar sepClass s5).findSome? fun s6 =>
              (exactDigits 4 s6).map fun s7 => s.length - s7.length

/-- `re.search`: leftmost match of an anchored matcher, returning the
matched slice. -/
def reSearch (tryAt : List Char → Option Nat) : List Char → Option (List Char)
  | [] =>
    (match tryAt [] with
     | some _ => some []
     | none => none)
  | c :: t =>
    match tryAt (c :: t) with
    | some n => some ((c :: t).take n)
    | none => reSearch tryAt t

/-- Clean-up of a phone match: `re.sub(r'[^\d+]', '', ...)` followed by the
minimum-length check; `None` sends `extract_phone` to the next pattern. -/
def phoneFrom (m : Option (List Char)) : Option (List Char) :=
  m.bind fun mm =>
    let ph := mm.filter fun c => c.isDigit || c == '+'
    if 10 ≤ ph.length then some ph else none

/-- `extract_phone`: try the three phone patterns in order; each pattern
contributes only its first match. -/
def extract_phone (text : List Char) : Option (List Char) :=
  match phoneFrom (reSearch p1At text) with
  | some ph => some ph
  | none =>
    match phoneFrom (reSearch p2At text) with
    | some ph => some ph
    | none => phoneFrom (reSearch p3At text)

/-- The username class `[A-Za-z0-9_-]` of the GitHub pattern. -/
def ghClass (c : Char) : Bool :=
  c.isAlphanum || c == '_' || c == '-'

/-- Anchored attempt of
`(?i)(?:https?://)?(?:www\.)?github\.com/[A-Za-z0-9_-]+`. -/
def ghAt (s : List Char) : Option Nat :=
  ((["https://".data, "http://".data].filterMap fun l => stripPrefCI l s) ++ [s]).findSome?
    fun s1 =>
      ((match stripPrefCI "www.".data s1 with
        | some r => [r, s1]
        | none => [s1]) : List (List Char)).findSome? fun s2 =>
        (stripPrefCI "github.com/".data s2).bind fun s3 =>
          let r := countWhile ghClass s3
          if 1 ≤ r then some (s.length - s3.length + r) else none

/-- `extract_github_url`: first match of the GitHub profile pattern. -/
def extract_github_url (text : List Char) : Option (List Char) :=
  reSearch ghAt text

/-- The username class `[A-Za-z0-9_.]` of the Instagram pattern. -/
def igClass (c : Char) : Bool :=
  c.isAlphanum || c == '_' || c == '.'

/-- Anchored attempt of `(?i)(?:@|instagram\.com/)([A-Za-z0-9_.]+)`;
the `@` alternative is tried first, as in the source pattern. -/
def igAt : List Char → Option Nat
  | '@' :: t =>
    let r := countWhile igClass t
    if 1 ≤ r then some (r + 1) else none
  | s =>
    (stripPrefCI "instagram.com/".data s).bind fun rest =>
      let r := countWhile igClass rest
      if 1 ≤ r then some (14 + r) else none

/-- `extract_instagram_username`: on a match, a case-sensitive
`"instagram.com/" in group(0)` test decides between returning the captured
username and `group(0).lstrip('@')`. -/
def extract_instagram_username (text : List Char) : Option (List Char) :=
  match reSearch igAt text with
  | none => none
  | some g0 =>
    if pyContains "instagram.com/".data g0 then some (g0.drop 14)
    else some (pyLStrip ['@'] g0)

/-- The label class `[a-zA-Z0-9-]` of the portfolio URL pattern. -/
def urlLabelClass (c : Char) : Bool :=
  c.isAlphanum || c == '-'

/-- Worker for `collectSegs` (fuel-based for structural recursion). -/
def collectSegsGo : Nat → List Char → List (List Char) × List Char
  | 0, s => ([], s)
  | fuel + 1, '.' :: t =>
    let r := t.takeWhile urlLabelClass
    if r.isEmpty then ([], '.' :: t)
    else
      let pr := collectSegsGo fuel (t.drop r.length)
      (r :: pr.1, pr.2)
  | _ + 1, s => ([], s)

/-- Collect the maximal chain of `.`-separated label runs following the
host's first label (the candidates consumed by the groups
`(?:\.[a-zA-Z0-9-]+)*(?:\.[a-zA-Z]{2,})+`). -/
def collectSegs (s : List Char) : List (List Char) × List Char :=
  collectSegsGo (s.length + 1) s

/-- Characters consumed by greedy `(?:\.[a-zA-Z]{2,})+` over the collected
label runs: full all-alphabetic labels are chained; a label whose
alphabetic prefix (of length ≥ 2) is proper ends the chain there. -/
def bPlusLen : List (List Char) → Option Nat
  | [] => none
  | seg :: rest =>
    let m := countWhile Char.isAlpha seg
    if m < 2 then none
    else if m == seg.length then some ((m + 1) + (bPlusLen rest).getD 0)
    else some (m + 1)

/-- Anchored attempt of the portfolio URL pattern
`(?:https?://|www\.)[a-zA-Z0-9-]+(?:\.[a-zA-Z0-9-]+)*(?:\.[a-zA-Z]{2,})+(?:/[^\s]*)?`
(case-sensitive: the source pattern carries no `(?i)` flag).  The greedy
starred group backtracks label by label, largest prefix first. -/
def urlAt (s : List Char) : Option Nat :=
  (["https://".data, "http://".data, "www.".data].filterMap fun l =>
      stripPref l s).findSome? fun s1 =>
    let lab := s1.takeWhile urlLabelClass
    if lab.isEmpty then none
    else
      let s2 := s1.drop lab.length
      let segs := (collectSegs s2).1
      ((List.range (segs.length + 1)).reverse).findSome? fun j =>
        (bPlusLen (segs.drop j)).map fun bc =>
          let hostLen := (s.length - s1.length) + lab.length +
            ((segs.take j).foldl (fun acc sg => acc + sg.length + 1) 0) + bc
          match (s.drop hostLen).head? with
          | some '/' => hostLen + 1 + countWhile (fun c => !isWs c) (s.drop (hostLen + 1))
          | _ => hostLen

/-- Worker for `findAllUrls` (fuel-based for structural recursion; every
match consumes at least one character, so the fuel is never exhausted). -/
def findAllUrlsGo : Nat → List Char → List (List Char)
  | 0, _ => []
  | _ + 1, [] => []
  | fuel + 1, c :: t =>
    match urlAt (c :: t) with
    | some n =>
      if n = 0 then findAllUrlsGo fuel t
      else ((c :: t).take n) :: findAllUrlsGo fuel ((c :: t).drop n)
    | none => findAllUrlsGo fuel t

/-- `re.finditer` for the portfolio URL pattern: non-overlapping matches,
left to right. -/
def findAllUrls (s : List Char) : List (List Char) :=
  findAllUrlsGo (s.length + 1) s

/-- The keyword labels searched for by the first stage of
`extract_portfolio_url`. -/
def portfolioKeywords : List (List Char) :=
  ["portfolio:".data, "portfolio website:".data, "portfolio url:".data,
   "portfolio link:".data]

/-- The personal-site domain heuristics of the second stage. -/
def portfolioDomains : List (List Char) :=
  ["vercel.app".data, "netlify.app".data, "github.io".data, "portfolio".data,
   "personal".data]

/-- `if not url.startswith('http'): url = 'https://' + url`. -/
def fixupUrl (url : List Char) : List Char :=
  if listStartsWith "http".data url then url else "https://".data ++ url

/-- `extract_portfolio_url`: keyword-anchored search on the lowercased text
first; otherwise scan all URLs, skipping GitHub/Instagram hosts and
accepting only personal-site domains. -/
def extract_portfolio_url (text : List Char) : Option (List Char) :=
  let tl := pyLower text
  let fromKeyword := portfolioKeywords.findSome? fun kw =>
    if pyContains kw tl then
      let after := pyStrip ((pySplitOnStr kw tl).getD 1 [])
      (reSearch urlAt after).map fixupUrl
    else none
  match fromKeyword with
  | some url => some url
  | none =>
    (findAllUrls text).findSome? fun url =>
      let ul := pyLower url
      if pyContains "github.com".data ul || pyContains "instagram.com".data ul then none
      else if portfolioDomains.any (fun d => pyContains d ul) then some (fixupUrl url)
      else none

/-- Substring alternatives of the first degree pattern
`(?i)(bachelor|master|phd|b\.?tech|m\.?tech|b\.?e|m\.?e|b\.?sc|m\.?sc|mba|diploma)[^\n]*`,
with each optional dot expanded to its two spellings (the trailing
`[^\n]*` can match the empty string, so a search succeeds iff some
alternative occurs as a substring). -/
def degreeAlts : List (List Char) :=
  ["bachelor".data, "master".data, "phd".data, "btech".data, "b.tech".data,
   "mtech".data, "m.tech".data, "be".data, "b.e".data, "me".data, "m.e".data,
   "bsc".data, "b.sc".data, "msc".data, "m.sc".data, "mba".data, "diploma".data]

/-- Substring alternatives of the second degree pattern
`(?i)(computer science|engineering|technology|science|arts|commerce)[^\n]*`. -/
def degreeAlts2 : List (List Char) :=
  ["computer science".data, "engineering".data, "technology".data,
   "science".data, "arts".data, "commerce".data]

/-- Substring alternatives of the two institution patterns. -/
def institutionAlts : List (List Char) :=
  ["university".data, "college".data, "institute".data, "school".data,
   "iiit".data, "iit".data, "nit".data]

/-- Anchored attempt of the year pattern
`(?i)(\d{4})\s*[-–]\s*(?:\d{4}|present|current)`; greedy `\s*` is exact
maximal munch since neither the dash nor the right alternatives start with
whitespace. -/
def yearRangeAt (s : List Char) : Bool :=
  match exactDigits 4 s with
  | none => false
  | some s1 =>
    match s1.drop (countWhile isWs s1) with
    | c :: t =>
      if c == '-' || c == '–' then
        let s3 := t.drop (countWhile isWs t)
        (exactDigits 4 s3).isSome || (stripPrefCI "present".data s3).isSome ||
          (stripPrefCI "current".data s3).isSome
      else false
    | [] => false

/-- `re.search` for the year pattern (only existence is used). -/
def hasYearRange : List Char → Bool
  | [] => false
  | c :: t => yearRangeAt (c :: t) || hasYearRange t

/-- Anchored attempt of `(?i)(?:gpa|cgpa)[:\s]*(\d+\.?\d*)`, returning the
captured numeric string. -/
def gpaAt (s : List Char) : Option (List Char) :=
  ["gpa".data, "cgpa".data].findSome? fun kw =>
    (stripPrefCI kw s).bind fun r1 =>
      let r2 := r1.drop (countWhile (fun c => c == ':' || isWs c) r1)
      let d1 := r2.takeWhile Char.isDigit
      if d1.isEmpty then none
      else
        match r2.drop d1.length with
        | '.' :: r4 => some (d1 ++ '.' :: r4.takeWhile Char.isDigit)
        | _ => some d1

/-- `re.search` for the GPA pattern, returning the first capture. -/
def findGpa : List Char → Option (List Char)
  | [] => none
  | c :: t =>
    match gpaAt (c :: t) with
    | some g => some g
    | none => findGpa t

/-- One education entry, as built by `extract_education` (fields start as
empty strings, exactly like the source's dict literal). -/
structure EduEntry where
  degree : List Char
  institution : List Char
  year : List Char
  gpa : List Char
deriving DecidableEq

/-- Python `any(current_edu.values())`. -/
def eduAny (e : EduEntry) : Bool :=
  !e.degree.isEmpty || !e.institution.isEmpty || !e.year.isEmpty || !e.gpa.isEmpty

/-- The line-scanning state machine of `extract_education`. -/
def eduScan : List (List Char) → Option EduEntry → List EduEntry
  | [], cur =>
    (match cur with
     | some e => if eduAny e then [e] else []
     | none => [])
  | rawLine :: rest, cur =>
    let line := clean_text rawLine
    if line.isEmpty then eduScan rest cur
    else
      let line_lower := pyLower line
      if (degreeAlts ++ degreeAlts2).any (fun a => pyContains a line_lower) then
        (match cur with
         | some e => if eduAny e then [e] else []
         | none => []) ++ eduScan rest (some ⟨line, [], [], []⟩)
      else if institutionAlts.any (fun a => pyContains a line_lower) then
        eduScan rest (match cur with
          | some e => some { e with institution := line }
          | none => none)
      else if hasYearRange line then
        eduScan rest (match cur with
          | some e => some { e with year := line }
          | none => none)
      else
        match findGpa line with
        | some g =>
          eduScan rest (match cur with
            | some e => some { e with gpa := g }
            | none => none)
        | none => eduScan rest cur

/-- `extract_education`: run the scanner over the text's lines and keep at
most five entries. -/
def extract_education (text : List Char) : List EduEntry :=
  (eduScan (pySplitOn '\n' text) none).take 5

/-- One experience entry, as built by `extract_experience`. -/
structure ExpEntry where
  title : List Char
  company : List Char
  duration : List Char
  description : List (List Char)
deriving DecidableEq

/-- Python `any(current_exp.values())`. -/
def expAny (e : ExpEntry) : Bool :=
  !e.title.isEmpty || !e.company.isEmpty || !e.duration.isEmpty ||
    !e.description.isEmpty

/-- The job-title keyword list of `extract_experience`. -/
def jobKeywords : List (List Char) :=
  ["engineer".data, "developer".data, "architect".data, "scientist".data,
   "manager".data, "lead".data, "consultant".data, "analyst".data,
   "specialist".data, "intern".data, "associate".data, "director".data,
   "software".data, "web".data, "mobile".data, "full stack".data,
   "frontend".data, "backend".data, "devops".data, "data".data, "ml".data,
   "ai".data, "project".data, "technical".data, "senior".data, "junior".data,
   "principal".data]

/-- `re.search(r'\d{n}', line)`: does the line contain a run of `n`
consecutive digits? -/
def hasDigitRun (n : Nat) : List Char → Bool
  | [] => n == 0
  | c :: t => n ≤ countWhile Char.isDigit (c :: t) || hasDigitRun n t

/-- `line.startswith(('-', '•', '*', '·'))`. -/
def bulletLead (line : List Char) : Bool :=
  match line with
  | c :: _ => c == '-' || c == '•' || c == '*' || c == '·'
  | [] => false

/-- The line-scanning state machine of `extract_experience`. -/
def expScan : List (List Char) → Option ExpEntry → List ExpEntry
  | [], cur =>
    (match cur with
     | some e => if expAny e then [e] else []
     | none => [])
  | rawLine :: rest, cur =>
    let line := clean_text rawLine
    if line.isEmpty then expScan rest cur
    else
      let line_lower := pyLower line
      if line.contains '@' || hasDigitRun 10 line then expScan rest cur
      else if (jobKeywords.any fun k => pyContains k line_lower) && 10 < line.length then
        (match cur with
         | some e => if expAny e then [e] else []
         | none => []) ++ expScan rest (some ⟨line, [], [], []⟩)
      else if (match cur with
               | some e => e.company.isEmpty
               | none => false) && 3 < line.length then
        expScan rest (cur.map fun e => { e with company := line })
      else if hasDigitRun 4 line && cur.isSome then
        expScan rest (cur.map fun e => { e with duration := line })
      else if cur.isSome && bulletLead line then
        expScan rest (cur.map fun e =>
          { e with description := e.description ++ [pyLStrip "-•*· ".data line] })
      else expScan rest cur

/-- `extract_experience`: run the scanner and keep at most five entries. -/
def extract_experience (text : List Char) : List ExpEntry :=
  (expScan (pySplitOn '\n' text) none).take 5

/-- One certification entry. -/
structure CertEntry where
  name : List Char
deriving DecidableEq

/-- The certification keyword list. -/
def certKeywords : List (List Char) :=
  ["aws".data, "azure".data, "gcp".data, "cisco".data, "microsoft".data,
   "oracle".data, "ibm".data, "google".data, "amazon".data, "comptia".data,
   "cissp".data, "pmp".data, "itil".data, "scrum".data, "agile".data,
   "certified".data, "certification".data, "certificate".data]

/-- The line scan of `extract_certifications` (lines are stripped, not
`clean_text`-normalized, in this extractor). -/
def certScan : List (List Char) → List CertEntry
  | [] => []
  | rawLine :: rest =>
    let line := pyStrip rawLine
    if line.isEmpty then certScan rest
    else
      let line_lower := pyLower line
      if (certKeywords.any fun k => pyContains k line_lower) && 5 < line.length then
        ⟨line⟩ :: certScan rest
      else certScan rest

/-- `extract_certifications`: at most five entries. -/
def extract_certifications (text : List Char) : List CertEntry :=
  (certScan (pySplitOn '\n' text)).take 5

/-- One project entry. -/
structure ProjEntry where
  name : List Char
  description : List (List Char)
  technologies : List (List Char)
deriving DecidableEq

/-- Python `any(current_project.values())`. -/
def projAny (p : ProjEntry) : Bool :=
  !p.name.isEmpty || !p.description.isEmpty || !p.technologies.isEmpty

/-- The project keyword list. -/
def projectKeywords : List (List Char) :=
  ["project".data, "application".data, "system".data, "platform".data,
   "website".data, "app".data, "software".data, "tool".data, "framework".data,
   "library".data, "developed".data, "created".data, "built".data,
   "implemented".data, "designed".data]

/-- The line-scanning state machine of `extract_projects`. -/
def projScan : List (List Char) → Option ProjEntry → List ProjEntry
  | [], cur =>
    (match cur with
     | some p => if projAny p then [p] else []
     | none => [])
  | rawLine :: rest, cur =>
    let line := clean_text rawLine
    if line.isEmpty then projScan rest cur
    else
      let line_lower := pyLower line
      if (projectKeywords.any fun k => pyContains k line_lower) && 10 < line.length then
        (match cur with
         | some p => if projAny p then [p] else []
         | none => []) ++ projScan rest (some ⟨line, [], []⟩)
      else if cur.isSome && bulletLead line then
        projScan rest (cur.map fun p =>
          { p with description := p.description ++ [pyLStrip "-•*· ".data line] })
      else if cur.isSome &&
          (common_skills.any fun tech => pyContains (pyLower tech) line_lower) then
        projScan rest (cur.map fun p =>
          { p with technologies := p.technologies ++ [line] })
      else projScan rest cur

/-- `extract_projects`: at most five entries. -/
def extract_projects (text : List Char) : List ProjEntry :=
  (projScan (pySplitOn '\n' text) none).take 5

/-- Python truthiness of an optional string field (`None` and `""` are
falsy). -/
def truthyOptStr : Option (List Char) → Bool
  | none => false
  | some s => !s.isEmpty

/-- The post-processing loop's effect on an optional string value:
a present string that strips to empty becomes `None`; otherwise it is kept
unchanged (not stripped). -/
def normOptStr : Option (List Char) → Option (List Char)
  | none => none
  | some s => if (pyStrip s).isEmpty then none else some s

/-- The post-processing loop's effect on a plain string value. -/
def normStr (s : List Char) : Option (List Char) :=
  if (pyStrip s).isEmpty then none else some s

/-- The post-processing loop's effect on a list value: empty lists become
`None`. -/
def normList {α : Type} (l : List α) : Option (List α) :=
  if l.isEmpty then none else some l

/-- The `metadata` sub-record. -/
structure MetaData where
  raw_text_length : Nat
  timestamp : List Char
deriving DecidableEq

/-- The record returned by `parse_resume` after its post-processing loop
(every normalizable top-level field is `Option`-typed, since the loop can
set it to `None`). -/
structure ResumeRecord where
  text : Option (List Char)
  email : Option (List Char)
  phone : Option (List Char)
  skills : Option (List (List Char))
  education : Option (List EduEntry)
  experience : Option (List ExpEntry)
  certifications : Option (List CertEntry)
  projects : Option (List ProjEntry)
  github_url : Option (List Char)
  portfolio_url : Option (List Char)
  instagram_username : Option (List Char)
  metadata : MetaData
deriving DecidableEq

/-- `validate_file_size`: `content` is the byte string; the hard-coded
bounds are `max_size_mb * 1024 * 1024` and 100 bytes. -/
def validate_file_size (content : List Nat) (max_size_mb : Nat) :
    Except (List Char) Unit :=
  if content.length > max_size_mb * 1024 * 1024 then
    .error ("File size exceeds maximum limit of ".data ++ (Nat.repr max_size_mb).data
      ++ "MB".data)
  else if content.length < 100 then
    .error "File appears to be empty or corrupted".data
  else .ok ()

/-- The extension dispatch of `parse_resume` (lines 416-421): decode as
PDF, as DOCX, or fail.  The decoders themselves are external libraries and
enter as oracle parameters. -/
def extract_text_step (ep ed : List Nat → Except (List Char) (List Char))
    (content : List Nat) (filename : List Char) : Except (List Char) (List Char) :=
  if pyEndsWith (pyLower filename) ".pdf".data then ep content
  else if pyEndsWith (pyLower filename) ".docx".data then ed content
  else .error ("Unsupported file type: ".data ++ filename)

/-- The body of `parse_resume` up to (but not including) the outer
exception wrapper. -/
def parse_resume_inner (ep ed : List Nat → Except (List Char) (List Char))
    (content : List Nat) (filename : List Char) (now : List Char) :
    Except (List Char) ResumeRecord :=
  match validate_file_size content 10 with
  | .error e => .error e
  | .ok _ =>
    match extract_text_step ep ed content filename with
    | .error e => .error e
    | .ok text =>
      if text.isEmpty || (pyStrip text).length < 50 then
        .error "Unable to extract meaningful text from the resume".data
      else
        let email := extract_email text
        let phone := extract_phone text
        let skills := extract_skills text
        let education := extract_education text
        let experience := extract_experience text
        if !(truthyOptStr email || truthyOptStr phone || !skills.isEmpty ||
             !education.isEmpty || !experience.isEmpty) then
          .error "Could not extract meaningful information from the resume".data
        else
          .ok { text := normStr text
                email := normOptStr email
                phone := normOptStr phone
                skills := normList skills
                education := normList education
                experience := normList experience
                certifications := normList (extract_certifications text)
                projects := normList (extract_projects text)
                github_url := normOptStr (extract_github_url text)
                portfolio_url := normOptStr (extract_portfolio_url text)
                instagram_username := normOptStr (extract_instagram_username text)
                metadata := ⟨text.length, now⟩ }

/-- `parse_resume`: the outer `except` clause re-raises every error with
the `"Error parsing resume: "` message prefix. -/
def parse_resume (ep ed : List Nat → Except (List Char) (List Char))
    (content : List Nat) (filename : List Char) (now : List Char) :
    Except (List Char) ResumeRecord :=
  match parse_resume_inner ep ed content filename now with
  | .error e => .error ("Error parsing resume: ".data ++ e)
  | .ok r => .ok r

end ResumeParser

namespace PortfolioScraper

/-- `clean_text` of portfolio_scraper:
`if not text: return None` then `' '.join(text.split())`.
A total function: it never raises on any input. -/
def clean_text (text : List Char) : Option (List Char) :=
  if text.isEmpty then none
  else some (joinSp (pySplitW text))

end PortfolioScraper

namespace CandidateAnalyzer

/-- A portfolio experience entry as consumed by the reconciler (the values
read through `exp.get("title", "")` / `exp.get("date")`). -/
structure PExp where
  title : List Char
  date : List Char
deriving DecidableEq

/-- A portfolio education entry as consumed by the reconciler. -/
structure PEdu where
  institution : List Char
  degree : List Char
deriving DecidableEq

/-- A portfolio project entry as consumed by the reconciler. -/
structure PProj where
  title : List Char
deriving DecidableEq

/-- The portfolio contact mapping (keys may be absent). -/
structure PContact where
  email : Option (List Char)
  website : Option (List Char)
deriving DecidableEq

/-- The portfolio record fields read by `cross_reference_data`. -/
structure PortfolioRecord where
  skills : List (List Char)
  experience : List PExp
  education : List PEdu
  projects : List PProj
  contact : PContact
deriving DecidableEq

/-- A GitHub repository as consumed by the reconciler:
`repo.get("language")` may be `None`. -/
structure Repo where
  name : List Char
  language : Option (List Char)
deriving DecidableEq

/-- The GitHub record fields read by `cross_reference_data`. -/
structure GithubRecord where
  repositories : List Repo
  blog : List Char
deriving DecidableEq

/-- A résumé experience entry as consumed by the reconciler
(`e.get("title", "")`). -/
structure RExp where
  title : List Char
deriving DecidableEq

/-- A résumé education entry as consumed by the reconciler. -/
structure REdu where
  institution : List Char
deriving DecidableEq

/-- The résumé record fields read by `cross_reference_data`. -/
structure RResume where
  skills : List (List Char)
  experience : List RExp
  education : List REdu
  email : Option (List Char)
  phone : Option (List Char)
deriving DecidableEq

/-- One entry of `skills_match`; `confidence` models the float
`len(sources) / 3.0` as an exact rational. -/
structure SkillMatch where
  skill : List Char
  sources : List (List Char)
  confidence : ℚ
deriving DecidableEq

/-- One entry of `experience_verification`. -/
structure ExpVer where
  title : List Char
  date : List Char
  verified_in_resume : Bool
deriving DecidableEq

/-- One entry of `education_verification`. -/
structure EduVer where
  institution : List Char
  degree : List Char
  verified_in_resume : Bool
deriving DecidableEq

/-- One entry of `project_verification`. -/
structure ProjVer where
  title : List Char
  verified_in_github : Bool
deriving DecidableEq

/-- The `contact_consistency` block. -/
structure ContactConsistency where
  email_portfolio : Option (List Char)
  email_resume : Option (List Char)
  email_consistent : Bool
  website_portfolio : Option (List Char)
  website_github : List Char
  website_consistent : Bool
deriving DecidableEq

/-- The analysis mapping returned by `cross_reference_data`. -/
structure Analysis where
  skills_match : List SkillMatch
  experience_verification : List ExpVer
  education_verification : List EduVer
  contact_consistency : ContactConsistency
  project_verification : List ProjVer
deriving DecidableEq

/-- The GitHub skill set: the truthy `language` field of each repository,
deduplicated (Python accumulates them into a set). -/
def githubSkills (repos : List Repo) : List (List Char) :=
  dedupFirst (repos.filterMap fun r =>
    match r.language with
    | some l => if l.isEmpty then none else some l
    | none => none)

/-- `cross_reference_data` over the three optional source records.  A
missing record contributes the `.get(..., default)` fallbacks of the
source: empty lists, `{}` contact, `""` email/blog.  Python's `set` union
has no specified iteration order; the union is modelled as first-seen
deduplication of portfolio ++ github ++ resume skills, which fixes one
order without affecting per-entry contents. -/
def cross_reference_data (portfolio : Option PortfolioRecord)
    (github : Option GithubRecord) (resume : Option RResume) : Analysis :=
  let portfolio_skills := (portfolio.map fun p => p.skills).getD []
  let resume_skills := (resume.map fun r => r.skills).getD []
  let github_repos := (github.map fun g => g.repositories).getD []
  let github_skills := githubSkills github_repos
  let all_skills := dedupFirst (portfolio_skills ++ github_skills ++ resume_skills)
  let skills_match := all_skills.map fun skill =>
    let sources :=
      (if portfolio_skills.contains skill then ["portfolio".data] else []) ++
      (if github_skills.contains skill then ["github".data] else []) ++
      (if resume_skills.contains skill then ["resume".data] else [])
    SkillMatch.mk skill sources ((sources.length : ℚ) / 3)
  let p_exp := (portfolio.map fun p => p.experience).getD []
  let r_exp := (resume.map fun r => r.experience).getD []
  let experience_verification := p_exp.map fun e =>
    ExpVer.mk e.title e.date
      (r_exp.any fun re => pyContains (pyLower re.title) (pyLower e.title))
  let p_edu := (portfolio.map fun p => p.education).getD []
  let r_edu := (resume.map fun r => r.education).getD []
  let education_verification := p_edu.map fun e =>
    EduVer.mk e.institution e.degree
      (r_edu.any fun re => pyContains (pyLower re.institution) (pyLower e.institution))
  let p_contact := (portfolio.map fun p => p.contact).getD ⟨none, none⟩
  let github_blog := (github.map fun g => g.blog).getD []
  let r_email : Option (List Char) :=
    match resume with
    | none => some []
    | some r => r.email
  let contact_consistency := ContactConsistency.mk
    p_contact.email r_email (p_contact.email == r_email)
    p_contact.website github_blog
    (match p_contact.website with
     | none => false
     | some w => w == github_blog)
  let p_proj := (portfolio.map fun p => p.projects).getD []
  let project_verification := p_proj.map fun pr =>
    ProjVer.mk pr.title
      (github_repos.any fun repo => pyContains (pyLower repo.name) (pyLower pr.title))
  Analysis.mk skills_match experience_verification education_verification
    contact_consistency project_verification

end CandidateAnalyzer

namespace ResumeParser

/-- Erase the wall-clock timestamp of a parsed record, for stating
determinism of `parse_resume` modulo the `metadata.timestamp` field. -/
def clearTimestamp (r : ResumeRecord) : ResumeRecord :=
  { r with metadata := MetaData.mk r.metadata.raw_text_length [] }

end ResumeParser

/-- C10: on the input text `"jane.doe@example.com"` (an email address, no
`@handle` mention and no instagram.com URL), `extract_instagram_username`
returns `"example.com"`: the handle pattern matches the `@` inside the
email and captures the maximal run of letters, digits, underscores and
periods after it. -/
theorem claim_C10 :
    ResumeParser.extract_instagram_username "jane.doe@example.com".data =
      some "example.com".data := by
  rfl

/-- C9: reconciling a portfolio project titled "Task Manager App" against
a GitHub repository named "task-manager" yields `verified_in_github =
false`: no separator normalization happens before the case-insensitive
substring check. -/
theorem claim_C9 :
    (CandidateAnalyzer.cross_reference_data
      (some (CandidateAnalyzer.PortfolioRecord.mk [] [] []
        [CandidateAnalyzer.PProj.mk "Task Manager App".data]
        (CandidateAnalyzer.PContact.mk none none)))
      (some (CandidateAnalyzer.GithubRecord.mk
        [CandidateAnalyzer.Repo.mk "task-manager".data none] []))
      none).project_verification =
      [CandidateAnalyzer.ProjVer.mk "Task Manager App".data false] := by
  rfl

/-- C3: for every input text, each of the four résumé section extractors
(education, experience, certifications, projects) returns at most five
entries. -/
theorem claim_C3 (text : List Char) :
    (ResumeParser.extract_education text).length ≤ 5 ∧
    (ResumeParser.extract_experience text).length ≤ 5 ∧
    (ResumeParser.extract_certifications text).length ≤ 5 ∧
    (ResumeParser.extract_projects text).length ≤ 5 := by
  refine ⟨?_, ?_, ?_, ?_⟩ <;>
    first
      | exact (ResumeParser.extract_education text).length_take_le ..
      | simp only [ResumeParser.extract_education, ResumeParser.extract_experience,
          ResumeParser.extract_certifications, ResumeParser.extract_projects,
          List.length_take]
        omega

/-- C7: for every content whose byte length is below 100 or above the
10 MB ceiling, `parse_resume` fails with the (wrapped) size-guard message,
whatever the decoders do: the error is produced before any decode is
attempted. -/
theorem claim_C7 (ep ed : List Nat → Except (List Char) (List Char))
    (content : List Nat) (filename : List Char) (now : List Char)
    (h : content.length < 100 ∨ content.length > 10 * 1024 * 1024) :
    ResumeParser.parse_resume ep ed content filename now =
      .error ("Error parsing resume: ".data ++
        (if content.length > 10 * 1024 * 1024 then
          ("File size exceeds maximum limit of ".data ++ (Nat.repr 10).data ++ "MB".data)
        else "File appears to be empty or corrupted".data)) := by
  unfold ResumeParser.parse_resume ResumeParser.parse_resume_inner
    ResumeParser.validate_file_size
  rcases h with h | h
  · have h2 : ¬ content.length > 10 * 1024 * 1024 := by omega
    simp [h, h2]
  · simp [h]

/-- C7 witness: a 5-byte input fails with the wrapped `InvalidInput`
message, never reaching the decoders. -/
theorem claim_C7_witness :
    ([0, 0, 0, 0, 0] : List Nat).length < 100 ∧
    ResumeParser.parse_resume (fun _ => .ok []) (fun _ => .ok []) [0, 0, 0, 0, 0]
      "r.pdf".data [] =
      .error "Error parsing resume: File appears to be empty or corrupted".data := by
  refine ⟨by decide, ?_⟩
  have h := claim_C7 (fun _ => .ok []) (fun _ => .ok []) [0, 0, 0, 0, 0]
    "r.pdf".data [] (Or.inl (by decide))
  rw [if_neg (by decide)] at h
  exact h

/-- Helper: the body of `parse_resume` (before the exception wrapper)
depends on `now` only through the record's timestamp. -/
theorem parse_resume_inner_clearTimestamp
    (ep ed : List Nat → Except (List Char) (List Char))
    (content : List Nat) (filename : List Char) (t1 t2 : List Char) :
    (ResumeParser.parse_resume_inner ep ed content filename t1).map
        ResumeParser.clearTimestamp =
      (ResumeParser.parse_resume_inner ep ed content filename t2).map
        ResumeParser.clearTimestamp := by
  unfold ResumeParser.parse_resume_inner
  split
  · rfl
  · split
    · rfl
    · split_ifs with h
      · rfl
      · dsimp only
        split_ifs with h2
        · rfl
        · rfl

/-- C1 (amended): `parse_resume` is deterministic in everything except the
`metadata.timestamp` field, which records the invocation time: two runs on
identical input agree after erasing the timestamp. -/
theorem claim_C1_amended (ep ed : List Nat → Except (List Char) (List Char))
    (content : List Nat) (filename : List Char) (t1 t2 : List Char) :
    (ResumeParser.parse_resume ep ed content filename t1).map
        ResumeParser.clearTimestamp =
      (ResumeParser.parse_resume ep ed content filename t2).map
        ResumeParser.clearTimestamp := by
  have hinner := parse_resume_inner_clearTimestamp ep ed content filename t1 t2
  unfold ResumeParser.parse_resume
  cases h1 : ResumeParser.parse_resume_inner ep ed content filename t1 with
  | error e =>
    cases h2 : ResumeParser.parse_resume_inner ep ed content filename t2 with
    | error e2 =>
      rw [h1, h2] at hinner
      simp only [Except.map] at hinner
      injection hinner with h3
      rw [h3]
    | ok r2 =>
      rw [h1, h2] at hinner
      simp only [Except.map] at hinner
      exact absurd hinner (by simp)
  | ok r =>
    cases h2 : ResumeParser.parse_resume_inner ep ed content filename t2 with
    | error e2 =>
      rw [h1, h2] at hinner
      simp only [Except.map] at hinner
      exact absurd hinner (by simp)
    | ok r2 =>
      rw [h1, h2] at hinner
      simp only [Except.map] at hinner
      injection hinner with h3
      simp only [Except.map]
      rw [h3]

/-- C1 counterexample: the claim demands byte-identical records including
metadata, but two invocations at different wall-clock instants return
records differing in `metadata.timestamp`. -/
theorem claim_C1_counterexample :
    ResumeParser.parse_resume
        (fun _ => .ok "contact someone at jane.doe@example.com for more info today ok".data)
        (fun _ => .ok []) (List.replicate 120 0) "r.pdf".data
        "2024-01-01T00:00:00".data ≠
      ResumeParser.parse_resume
        (fun _ => .ok "contact someone at jane.doe@example.com for more info today ok".data)
        (fun _ => .ok []) (List.replicate 120 0) "r.pdf".data
        "2024-01-01T00:00:01".data := by
  intro h
  have h1 : (ResumeParser.parse_resume
      (fun _ => .ok "contact someone at jane.doe@example.com for more info today ok".data)
      (fun _ => .ok []) (List.replicate 120 0) "r.pdf".data
      "2024-01-01T00:00:00".data).map (fun r => r.metadata.timestamp) =
      .ok "2024-01-01T00:00:00".data := by rfl
  have h2 : (ResumeParser.parse_resume
      (fun _ => .ok "contact someone at jane.doe@example.com for more info today ok".data)
      (fun _ => .ok []) (List.replicate 120 0) "r.pdf".data
      "2024-01-01T00:00:01".data).map (fun r => r.metadata.timestamp) =
      .ok "2024-01-01T00:00:01".data := by rfl
  rw [h] at h1
  rw [h2] at h1
  injection h1 with h3
  exact absurd h3 (by decide)

/-- Helper: membership in a conditional singleton list. -/
theorem mem_cond_singleton {x s : List Char} {c : Prop} [Decidable c]
    (h : s ∈ if c then [x] else []) : s = x := by
  split at h
  · simpa using h
  · simp at h

/-- C4: every `skills_match` entry of the reconciliation report draws its
sources from {portfolio, github, resume} and carries
`confidence = len(sources)/3`, hence a value in {0, 1/3, 2/3, 1}. -/
theorem claim_C4 (portfolio : Option CandidateAnalyzer.PortfolioRecord)
    (github : Option CandidateAnalyzer.GithubRecord)
    (resume : Option CandidateAnalyzer.RResume) :
    ∀ m ∈ (CandidateAnalyzer.cross_reference_data portfolio github resume).skills_match,
      (∀ s ∈ m.sources, s = "portfolio".data ∨ s = "github".data ∨ s = "resume".data) ∧
      m.confidence = (m.sources.length : ℚ) / 3 ∧
      (m.confidence = 0 ∨ m.confidence = 1/3 ∨ m.confidence = 2/3 ∨ m.confidence = 1) := by
  intro m hm
  simp only [CandidateAnalyzer.cross_reference_data, List.mem_map] at hm
  obtain ⟨skill, hsk, rfl⟩ := hm
  refine ⟨?_, rfl, ?_⟩
  · intro s hs
    simp only at hs
    rcases List.mem_append.mp hs with h | h
    · rcases List.mem_append.mp h with h | h
      · exact Or.inl (mem_cond_singleton h)
      · exact Or.inr (Or.inl (mem_cond_singleton h))
    · exact Or.inr (Or.inr (mem_cond_singleton h))
  · simp only
    by_cases c1 : skill ∈ (portfolio.map fun p => p.skills).getD [] <;>
      by_cases c2 : skill ∈ CandidateAnalyzer.githubSkills
        ((github.map fun g => g.repositories).getD []) <;>
      by_cases c3 : skill ∈ (resume.map fun r => r.skills).getD [] <;>
      simp [c1, c2, c3] <;> norm_num

/-- C4 witness: a portfolio-only skill gets sources `["portfolio"]` and
confidence 1/3, an element of the allowed set. -/
theorem claim_C4_witness :
    (CandidateAnalyzer.SkillMatch.mk "Python".data ["portfolio".data] ((1 : ℚ) / 3)) ∈
      (CandidateAnalyzer.cross_reference_data
        (some (CandidateAnalyzer.PortfolioRecord.mk ["Python".data] [] [] []
          (CandidateAnalyzer.PContact.mk none none)))
        none none).skills_match ∧
    ((1 : ℚ) / 3 = 0 ∨ (1 : ℚ) / 3 = 1/3 ∨ (1 : ℚ) / 3 = 2/3 ∨ (1 : ℚ) / 3 = 1) := by
  have hmem : (CandidateAnalyzer.SkillMatch.mk "Python".data ["portfolio".data]
      ((1 : ℚ) / 3)) ∈
      (CandidateAnalyzer.cross_reference_data
        (some (CandidateAnalyzer.PortfolioRecord.mk ["Python".data] [] [] []
          (CandidateAnalyzer.PContact.mk none none)))
        none none).skills_match := by
    have : (CandidateAnalyzer.cross_reference_data
        (some (CandidateAnalyzer.PortfolioRecord.mk ["Python".data] [] [] []
          (CandidateAnalyzer.PContact.mk none none)))
        none none).skills_match =
        [CandidateAnalyzer.SkillMatch.mk "Python".data ["portfolio".data]
          ((1 : ℚ) / 3)] := by rfl
    rw [this]
    exact List.mem_singleton.mpr rfl
  exact ⟨hmem, (claim_C4 _ _ _ _ hmem).2.2⟩

/-- C8: in the reconciliation report, a portfolio experience entry is
marked `verified_in_resume` exactly when some résumé experience title is a
case-insensitive substring of the portfolio entry's title. -/
theorem claim_C8 (portfolio : Option CandidateAnalyzer.PortfolioRecord)
    (github : Option CandidateAnalyzer.GithubRecord)
    (resume : Option CandidateAnalyzer.RResume) :
    ∀ ev ∈ (CandidateAnalyzer.cross_reference_data portfolio github
        resume).experience_verification,
      (ev.verified_in_resume = true ↔
        ∃ re ∈ (resume.map fun r => r.experience).getD [],
          pyContains (pyLower re.title) (pyLower ev.title) = true) := by
  intro ev hev
  simp only [CandidateAnalyzer.cross_reference_data, List.mem_map] at hev
  obtain ⟨e, he, rfl⟩ := hev
  simpa using List.any_eq_true

/-- C8 witness: résumé title "Engineer" is a case-insensitive substring of
portfolio title "Senior Software Engineer", so the entry is verified. -/
theorem claim_C8_witness :
    ((CandidateAnalyzer.ExpVer.mk "Senior Software Engineer".data "2020".data
        true).verified_in_resume = true ↔
      ∃ re ∈ ((some (CandidateAnalyzer.RResume.mk []
          [CandidateAnalyzer.RExp.mk "Engineer".data] [] none none)).map
            fun r => r.experience).getD [],
        pyContains (pyLower re.title)
          (pyLower (CandidateAnalyzer.ExpVer.mk "Senior Software Engineer".data
            "2020".data true).title) = true) := by
  have hmem : (CandidateAnalyzer.ExpVer.mk "Senior Software Engineer".data "2020".data
      true) ∈
      (CandidateAnalyzer.cross_reference_data
        (some (CandidateAnalyzer.PortfolioRecord.mk []
          [CandidateAnalyzer.PExp.mk "Senior Software Engineer".data "2020".data] [] []
          (CandidateAnalyzer.PContact.mk none none)))
        none
        (some (CandidateAnalyzer.RResume.mk []
          [CandidateAnalyzer.RExp.mk "Engineer".data] [] none none))).experience_verification := by
    decide
  exact claim_C8 _ _ _ _ hmem

/-- Helper: a string surviving the post-processing loop as `some` does not
strip to empty. -/
theorem normOptStr_strip {o : Option (List Char)} {s : List Char}
    (h : ResumeParser.normOptStr o = some s) : (pyStrip s).isEmpty = false := by
  cases o with
  | none => simp [ResumeParser.normOptStr] at h
  | some v =>
    have h2 : (if (pyStrip v).isEmpty = true then none else some v) = some s := h
    split at h2
    · exact absurd h2 (by simp)
    · injection h2 with h3
      subst h3
      rename_i hcond
      simpa using hcond

/-- Helper: the plain-string variant of `normOptStr_strip`. -/
theorem normStr_strip {t s : List Char}
    (h : ResumeParser.normStr t = some s) : (pyStrip s).isEmpty = false := by
  unfold ResumeParser.normStr at h
  split at h
  · exact absurd h (by simp)
  · injection h with h2
    subst h2
    rename_i hcond
    simpa using hcond

/-- Helper: a list surviving the post-processing loop as `some` is
non-empty. -/
theorem normList_ne {α : Type} {l l2 : List α}
    (h : ResumeParser.normList l = some l2) : l2 ≠ [] := by
  unfold ResumeParser.normList at h
  split at h
  · exact absurd h (by simp)
  · injection h with h2
    subst h2
    rename_i hcond
    intro hnil
    simp [hnil] at hcond

/-- Helper: a successful `parse_resume` is a successful
`parse_resume_inner`. -/
theorem parse_resume_ok {ep ed : List Nat → Except (List Char) (List Char)}
    {content : List Nat} {filename now : List Char} {r : ResumeParser.ResumeRecord}
    (h : ResumeParser.parse_resume ep ed content filename now = .ok r) :
    ResumeParser.parse_resume_inner ep ed content filename now = .ok r := by
  unfold ResumeParser.parse_resume at h
  split at h
  · exact absurd h (by simp)
  · rename_i r2 heq
    injection h with h2
    subst h2
    exact heq

/-- C2 (amended): the post-processing loop guarantees the invariant only
for the record's top-level fields: every top-level string field that is
present does not strip to empty and every top-level list field that is
present is non-empty.  (Nested entries are not normalized and may contain
empty strings or lists; see the counterexample.) -/
theorem claim_C2_amended (ep ed : List Nat → Except (List Char) (List Char))
    (content : List Nat) (filename now : List Char) (r : ResumeParser.ResumeRecord)
    (h : ResumeParser.parse_resume ep ed content filename now = .ok r) :
    (∀ s, r.text = some s → (pyStrip s).isEmpty = false) ∧
    (∀ s, r.email = some s → (pyStrip s).isEmpty = false) ∧
    (∀ s, r.phone = some s → (pyStrip s).isEmpty = false) ∧
    (∀ s, r.github_url = some s → (pyStrip s).isEmpty = false) ∧
    (∀ s, r.portfolio_url = some s → (pyStrip s).isEmpty = false) ∧
    (∀ s, r.instagram_username = some s → (pyStrip s).isEmpty = false) ∧
    (∀ l, r.skills = some l → l ≠ []) ∧
    (∀ l, r.education = some l → l ≠ []) ∧
    (∀ l, r.experience = some l → l ≠ []) ∧
    (∀ l, r.certifications = some l → l ≠ []) ∧
    (∀ l, r.projects = some l → l ≠ []) := by
  have hin := parse_resume_ok h
  unfold ResumeParser.parse_resume_inner at hin
  split at hin
  · exact absurd hin (by simp)
  · split at hin
    · exact absurd hin (by simp)
    · split at hin
      · exact absurd hin (by simp)
      · dsimp only at hin
        split at hin
        · exact absurd hin (by simp)
        · injection hin with h3
          subst h3
          refine ⟨fun s hs => normStr_strip hs,
            fun s hs => normOptStr_strip hs, fun s hs => normOptStr_strip hs,
            fun s hs => normOptStr_strip hs, fun s hs => normOptStr_strip hs,
            fun s hs => normOptStr_strip hs,
            fun l hl => normList_ne hl, fun l hl => normList_ne hl,
            fun l hl => normList_ne hl, fun l hl => normList_ne hl,
            fun l hl => normList_ne hl⟩

/-- C2 counterexample: on a résumé consisting of the single degree line
"bachelor of technology in computer engineering at a fine place",
`parse_resume` succeeds and the returned record's education entry carries
`institution`, `year` and `gpa` as empty strings — the record does contain
empty strings (inside nested entries), contradicting the claim. -/
theorem claim_C2_counterexample :
    (ResumeParser.parse_resume
        (fun _ => .ok "bachelor of technology in computer engineering at a fine place".data)
        (fun _ => .ok []) (List.replicate 120 0) "r.pdf".data "2024".data).map
      (fun r => r.education) =
    .ok (some [ResumeParser.EduEntry.mk
      "bachelor of technology in computer engineering at a fine place".data
      [] [] []]) := by
  rfl

/-- C2 witness: a concrete successful parse, with the top-level invariant
instantiated on its education field. -/
theorem claim_C2_witness :
    ResumeParser.parse_resume
        (fun _ => .ok "bachelor plus fluffy wording to push this text over fifty chars ok".data)
        (fun _ => .ok []) (List.replicate 120 0) "r.pdf".data "2024".data =
      .ok (ResumeParser.ResumeRecord.mk
        (some "bachelor plus fluffy wording to push this text over fifty chars ok".data)
        none none none
        (some [ResumeParser.EduEntry.mk
          "bachelor plus fluffy wording to push this text over fifty chars ok".data
          [] [] []])
        none none none none none none
        (ResumeParser.MetaData.mk
          "bachelor plus fluffy wording to push this text over fifty chars ok".data.length
          "2024".data)) ∧
    (ResumeParser.ResumeRecord.mk
        (some "bachelor plus fluffy wording to push this text over fifty chars ok".data)
        none none none
        (some [ResumeParser.EduEntry.mk
          "bachelor plus fluffy wording to push this text over fifty chars ok".data
          [] [] []])
        none none none none none none
        (ResumeParser.MetaData.mk
          "bachelor plus fluffy wording to push this text over fifty chars ok".data.length
          "2024".data)).education ≠ some [] := by
  have hp : ResumeParser.parse_resume
      (fun _ => .ok "bachelor plus fluffy wording to push this text over fifty chars ok".data)
      (fun _ => .ok []) (List.replicate 120 0) "r.pdf".data "2024".data =
      .ok (ResumeParser.ResumeRecord.mk
        (some "bachelor plus fluffy wording to push this text over fifty chars ok".data)
        none none none
        (some [ResumeParser.EduEntry.mk
          "bachelor plus fluffy wording to push this text over fifty chars ok".data
          [] [] []])
        none none none none none none
        (ResumeParser.MetaData.mk
          "bachelor plus fluffy wording to push this text over fifty chars ok".data.length
          "2024".data)) := by rfl
  refine ⟨hp, fun hc => ?_⟩
  exact (claim_C2_amended _ _ _ _ _ _ hp).2.2.2.2.2.2.2.1 [] hc rfl

/-- C6 (amended): after text extraction succeeds (size guard passed, a
supported extension decoded to `text`, and `text` is non-empty with
stripped length at least 50), `parse_resume` rejects with the
no-meaningful-data error exactly when email, phone, skills, education and
experience are all empty after extraction — the GitHub URL, portfolio URL
and Instagram handle play no role in the check; when at least one of the
five checked fields is non-empty, a record is returned. -/
theorem claim_C6_amended (ep ed : List Nat → Except (List Char) (List Char))
    (content : List Nat) (filename now text : List Char)
    (hsize : ResumeParser.validate_file_size content 10 = .ok ())
    (hstep : ResumeParser.extract_text_step ep ed content filename = .ok text)
    (htext : (text.isEmpty || decide ((pyStrip text).length < 50)) = false) :
    (ResumeParser.parse_resume ep ed content filename now =
        .error ("Error parsing resume: ".data ++
          "Could not extract meaningful information from the resume".data) ↔
      (ResumeParser.truthyOptStr (ResumeParser.extract_email text) = false ∧
       ResumeParser.truthyOptStr (ResumeParser.extract_phone text) = false ∧
       ResumeParser.extract_skills text = [] ∧
       ResumeParser.extract_education text = [] ∧
       ResumeParser.extract_experience text = [])) ∧
    (¬(ResumeParser.truthyOptStr (ResumeParser.extract_email text) = false ∧
       ResumeParser.truthyOptStr (ResumeParser.extract_phone text) = false ∧
       ResumeParser.extract_skills text = [] ∧
       ResumeParser.extract_education text = [] ∧
       ResumeParser.extract_experience text = []) →
      ∃ r, ResumeParser.parse_resume ep ed content filename now = .ok r) := by
  have hA : (ResumeParser.truthyOptStr (ResumeParser.extract_email text) ||
      ResumeParser.truthyOptStr (ResumeParser.extract_phone text) ||
      !(ResumeParser.extract_skills text).isEmpty ||
      !(ResumeParser.extract_education text).isEmpty ||
      !(ResumeParser.extract_experience text).isEmpty) = false →
      ResumeParser.parse_resume ep ed content filename now =
        .error ("Error parsing resume: ".data ++
          "Could not extract meaningful information from the resume".data) := by
    intro hc
    unfold ResumeParser.parse_resume ResumeParser.parse_resume_inner
    rw [hsize, hstep]
    simp [htext, hc]
  have hB : (ResumeParser.truthyOptStr (ResumeParser.extract_email text) ||
      ResumeParser.truthyOptStr (ResumeParser.extract_phone text) ||
      !(ResumeParser.extract_skills text).isEmpty ||
      !(ResumeParser.extract_education text).isEmpty ||
      !(ResumeParser.extract_experience text).isEmpty) = true →
      ∃ r, ResumeParser.parse_resume ep ed content filename now = .ok r := by
    intro hc
    unfold ResumeParser.parse_resume ResumeParser.parse_resume_inner
    rw [hsize, hstep]
    simp [htext, hc]
  have hsplit : ∀ a b : Bool, ∀ l1 : List (List Char), ∀ l2 : List ResumeParser.EduEntry,
      ∀ l3 : List ResumeParser.ExpEntry,
      (a || b || !l1.isEmpty || !l2.isEmpty || !l3.isEmpty) = false ↔
      (a = false ∧ b = false ∧ l1 = [] ∧ l2 = [] ∧ l3 = []) := by
    intro a b l1 l2 l3
    cases a <;> cases b <;> simp [List.isEmpty_iff, and_assoc]
  constructor
  · constructor
    · intro hp
      cases hval : (ResumeParser.truthyOptStr (ResumeParser.extract_email text) ||
          ResumeParser.truthyOptStr (ResumeParser.extract_phone text) ||
          !(ResumeParser.extract_skills text).isEmpty ||
          !(ResumeParser.extract_education text).isEmpty ||
          !(ResumeParser.extract_experience text).isEmpty) with
      | false => exact (hsplit _ _ _ _ _).mp hval
      | true =>
        obtain ⟨r, hr⟩ := hB hval
        rw [hp] at hr
        exact absurd hr (by simp)
    · intro hconj
      exact hA ((hsplit _ _ _ _ _).mpr hconj)
  · intro hn
    cases hval : (ResumeParser.truthyOptStr (ResumeParser.extract_email text) ||
        ResumeParser.truthyOptStr (ResumeParser.extract_phone text) ||
        !(ResumeParser.extract_skills text).isEmpty ||
        !(ResumeParser.extract_education text).isEmpty ||
        !(ResumeParser.extract_experience text).isEmpty) with
    | false => exact absurd ((hsplit _ _ _ _ _).mp hval) hn
    | true => exact hB hval

/-- C6 counterexample: a résumé whose only identity datum is a portfolio
URL ("portfolio: www.mysite.org ...") is rejected with the
no-meaningful-data error even though `extract_portfolio_url` is non-empty:
the claim's "if at least one identity field is non-empty the record is
returned" is false for the GitHub/portfolio/Instagram fields. -/
theorem claim_C6_counterexample :
    ResumeParser.parse_resume
        (fun _ => .ok "portfolio: www.mysite.org fluffy words to push this text over fifty chars okay".data)
        (fun _ => .ok []) (List.replicate 120 0) "r.pdf".data "2024".data =
      .error "Error parsing resume: Could not extract meaningful information from the resume".data ∧
    ResumeParser.extract_portfolio_url
        "portfolio: www.mysite.org fluffy words to push this text over fifty chars okay".data =
      some "https://www.mysite.org".data := by
  exact ⟨by rfl, by rfl⟩

/-- C6 witness: on a résumé text containing an email address, the
rejection characterization is instantiated with all hypotheses discharged
by evaluation. -/
theorem claim_C6_witness :
    (ResumeParser.parse_resume
        (fun _ => .ok "contact someone at jane.doe@example.com for more info today ok".data)
        (fun _ => .ok []) (List.replicate 120 0) "r.pdf".data "2024".data =
        .error ("Error parsing resume: ".data ++
          "Could not extract meaningful information from the resume".data) ↔
      (ResumeParser.truthyOptStr (ResumeParser.extract_email
          "contact someone at jane.doe@example.com for more info today ok".data) = false ∧
       ResumeParser.truthyOptStr (ResumeParser.extract_phone
          "contact someone at jane.doe@example.com for more info today ok".data) = false ∧
       ResumeParser.extract_skills
          "contact someone at jane.doe@example.com for more info today ok".data = [] ∧
       ResumeParser.extract_education
          "contact someone at jane.doe@example.com for more info today ok".data = [] ∧
       ResumeParser.extract_experience
          "contact someone at jane.doe@example.com for more info today ok".data = [])) ∧
    (¬(ResumeParser.truthyOptStr (ResumeParser.extract_email
          "contact someone at jane.doe@example.com for more info today ok".data) = false ∧
       ResumeParser.truthyOptStr (ResumeParser.extract_phone
          "contact someone at jane.doe@example.com for more info today ok".data) = false ∧
       ResumeParser.extract_skills
          "contact someone at jane.doe@example.com for more info today ok".data = [] ∧
       ResumeParser.extract_education
          "contact someone at jane.doe@example.com for more info today ok".data = [] ∧
       ResumeParser.extract_experience
          "contact someone at jane.doe@example.com for more info today ok".data = []) →
      ∃ r, ResumeParser.parse_resume
        (fun _ => .ok "contact someone at jane.doe@example.com for more info today ok".data)
        (fun _ => .ok []) (List.replicate 120 0) "r.pdf".data "2024".data = .ok r) := by
  exact claim_C6_amended _ _ _ _ _ _ (by rfl) (by rfl) (by rfl)

/-- Every token produced by Python `split()` is non-empty and
whitespace-free. -/
theorem splitGo_tokens : ∀ (s cur : List Char), (∀ c ∈ cur, isWs c = false) →
    ∀ t ∈ pySplitGo cur s, t ≠ [] ∧ ∀ c ∈ t, isWs c = false := by
  intro s
  induction s with
  | nil =>
    intro cur hcur t ht
    simp only [pySplitGo] at ht
    split at ht
    · simp at ht
    · rename_i hne
      simp only [List.mem_singleton] at ht
      subst ht
      refine ⟨?_, ?_⟩
      · intro hc
        rw [List.reverse_eq_nil_iff] at hc
        subst hc
        simp at hne
      · intro c hc
        exact hcur c (List.mem_reverse.mp hc)
  | cons c t ih =>
    intro cur hcur tok htok
    simp only [pySplitGo] at htok
    by_cases hws : isWs c = true
    · rw [if_pos hws] at htok
      by_cases hemp : cur.isEmpty = true
      · rw [if_pos hemp] at htok
        exact ih [] (by simp) tok htok
      · rw [if_neg hemp] at htok
        rcases List.mem_cons.mp htok with h | h
        · subst h
          refine ⟨?_, ?_⟩
          · intro hc
            rw [List.reverse_eq_nil_iff] at hc
            subst hc
            simp at hemp
          · intro d hd
            exact hcur d (List.mem_reverse.mp hd)
        · exact ih [] (by simp) tok h
    · rw [if_neg hws] at htok
      refine ih (c :: cur) ?_ tok htok
      intro d hd
      rcases List.mem_cons.mp hd with h | h
      · subst h
        exact Bool.eq_false_iff.mpr hws
      · exact hcur d h

/-- `split()` preserves the non-whitespace characters in order. -/
theorem splitGo_flatten : ∀ (s cur : List Char),
    (pySplitGo cur s).flatten = cur.reverse ++ s.filter (fun c => !isWs c) := by
  intro s
  induction s with
  | nil =>
    intro cur
    simp only [pySplitGo]
    split
    · rename_i hemp
      rw [List.isEmpty_iff] at hemp
      subst hemp
      simp
    · simp
  | cons c t ih =>
    intro cur
    simp only [pySplitGo]
    by_cases hws : isWs c = true
    · rw [if_pos hws]
      by_cases hemp : cur.isEmpty = true
      · rw [if_pos hemp]
        rw [List.isEmpty_iff] at hemp
        subst hemp
        simp [ih, List.filter_cons, hws]
      · rw [if_neg hemp]
        simp [ih, List.filter_cons, hws]
    · rw [if_neg hws]
      rw [ih (c :: cur)]
      simp [List.filter_cons, Bool.eq_false_iff.mpr hws]

/-- Filtering whitespace out of the space-joined tokens recovers their
concatenation. -/
theorem joinSp_filter : ∀ ts : List (List Char),
    (∀ t ∈ ts, ∀ c ∈ t, isWs c = false) →
    (joinSp ts).filter (fun c => !isWs c) = ts.flatten := by
  intro ts
  induction ts with
  | nil => intro _; simp [joinSp]
  | cons t rest ih =>
    intro h
    cases rest with
    | nil =>
      simp only [joinSp, List.flatten, List.append_nil]
      rw [List.filter_eq_self]
      intro c hc
      simp [h t (by simp) c hc]
    | cons t2 rest2 =>
      show (t ++ ' ' :: joinSp (t2 :: rest2)).filter (fun c => !isWs c) = _
      rw [List.filter_append, List.filter_cons]
      have hsp : (!isWs ' ') = false := by decide
      rw [hsp]
      simp only [Bool.false_eq_true, if_false]
      rw [List.filter_eq_self.mpr (fun c hc => by simp [h t (by simp) c hc])]
      rw [ih (fun u hu c hc => h u (by simp [hu]) c hc)]
      simp [List.flatten]

/-- The head of the join is the head of the first token. -/
theorem joinSp_head : ∀ (ts : List (List Char)),
    (∀ t ∈ ts, t ≠ []) → ∀ c, (joinSp ts).head? = some c →
    ∃ t ∈ ts, c ∈ t := by
  intro ts hne c hc
  cases ts with
  | nil => simp [joinSp] at hc
  | cons t rest =>
    have ht : t ≠ [] := hne t (by simp)
    cases t with
    | nil => exact absurd rfl ht
    | cons a t' =>
      cases rest with
      | nil =>
        simp only [joinSp, List.head?] at hc
        injection hc with h2
        exact ⟨a :: t', by simp, by simp [h2]⟩
      | cons t2 rest2 =>
        have hc2 : ((a :: t') ++ ' ' :: joinSp (t2 :: rest2)).head? = some c := hc
        simp only [List.cons_append, List.head?] at hc2
        injection hc2 with h2
        exact ⟨a :: t', by simp, by simp [h2]⟩

/-- The join of non-empty tokens is empty only when there are no tokens. -/
theorem joinSp_eq_nil : ∀ (ts : List (List Char)), (∀ t ∈ ts, t ≠ []) →
    (joinSp ts = [] ↔ ts = []) := by
  intro ts hne
  cases ts with
  | nil => simp [joinSp]
  | cons t rest =>
    have ht : t ≠ [] := hne t (by simp)
    cases rest with
    | nil =>
      simp only [joinSp]
      simp [ht]
    | cons t2 rest2 =>
      show (t ++ ' ' :: joinSp (t2 :: rest2)) = [] ↔ _
      simp

/-- The last element of the join is the last element of the last token. -/
theorem joinSp_getLast : ∀ (ts : List (List Char)),
    (∀ t ∈ ts, t ≠ []) → ∀ c, (joinSp ts).getLast? = some c →
    ∃ t ∈ ts, c ∈ t := by
  intro ts
  induction ts with
  | nil => intro _ c hc; simp [joinSp] at hc
  | cons t rest ih =>
    intro hne c hc
    cases rest with
    | nil =>
      simp only [joinSp] at hc
      have hmem : c ∈ t := by
        obtain ⟨h1, h2⟩ := List.mem_getLast?_eq_getLast
          (Option.mem_def.mpr hc : c ∈ t.getLast?)
        rw [h2]
        exact List.getLast_mem h1
      exact ⟨t, by simp, hmem⟩
    | cons t2 rest2 =>
      have hc2 : (t ++ ' ' :: joinSp (t2 :: rest2)).getLast? = some c := hc
      have hjne : joinSp (t2 :: rest2) ≠ [] := by
        rw [ne_eq, joinSp_eq_nil (t2 :: rest2) (fun u hu => hne u (by simp [hu]))]
        simp
      rw [List.getLast?_append_of_ne_nil t (by simp)] at hc2
      have hc3 : ([' '] ++ joinSp (t2 :: rest2)).getLast? = some c := hc2
      rw [List.getLast?_append_of_ne_nil [' '] hjne] at hc3
      obtain ⟨u, hu, hcu⟩ := ih (fun u hu => hne u (by simp [hu])) c hc3
      exact ⟨u, by simp [hu], hcu⟩

/-- Adjacent whitespace never survives the join of whitespace-free
tokens. -/
theorem joinSp_chain : ∀ (ts : List (List Char)),
    (∀ t ∈ ts, t ≠ [] ∧ ∀ c ∈ t, isWs c = false) →
    List.Chain' (fun a b => ¬(isWs a = true ∧ isWs b = true)) (joinSp ts) := by
  intro ts
  induction ts with
  | nil => intro _; simp [joinSp]
  | cons t rest ih =>
    intro h
    have hchain : ∀ u : List Char, (∀ c ∈ u, isWs c = false) →
        List.Chain' (fun a b => ¬(isWs a = true ∧ isWs b = true)) u := by
      intro u
      induction u with
      | nil => intro _; simp
      | cons a u' ihu =>
        intro hu
        rw [List.chain'_cons']
        refine ⟨?_, ihu (fun c hc => hu c (by simp [hc]))⟩
        intro y _
        intro hcon
        have := hu a (by simp)
        rw [this] at hcon
        exact absurd hcon.1 (by simp)
    cases rest with
    | nil =>
      exact hchain t (h t (by simp)).2
    | cons t2 rest2 =>
      show List.Chain' _ (t ++ ' ' :: joinSp (t2 :: rest2))
      rw [List.chain'_append]
      refine ⟨hchain t (h t (by simp)).2, ?_, ?_⟩
      · rw [List.chain'_cons']
        refine ⟨?_, ih (fun u hu => h u (by simp [hu]))⟩
        intro y hy
        intro hcon
        obtain ⟨u, hu, hyu⟩ := joinSp_head (t2 :: rest2)
          (fun u hu => (h u (by simp [hu])).1) y (Option.mem_def.mp hy)
        have := (h u (by simp [hu])).2 y hyu
        rw [this] at hcon
        exact absurd hcon.2 (by simp)
      · intro x hx y hy
        intro hcon
        have hxt : x ∈ t := by
          obtain ⟨h1, h2⟩ := List.mem_getLast?_eq_getLast hx
          rw [h2]
          exact List.getLast_mem h1
        have := (h t (by simp)).2 x hxt
        rw [this] at hcon
        exact absurd hcon.1 (by simp)

/-- Every whitespace character in the join is the inserted single
space. -/
theorem joinSp_ws_space : ∀ (ts : List (List Char)),
    (∀ t ∈ ts, ∀ c ∈ t, isWs c = false) →
    ∀ c ∈ joinSp ts, isWs c = true → c = ' ' := by
  intro ts
  induction ts with
  | nil => intro _ c hc; simp [joinSp] at hc
  | cons t rest ih =>
    intro h c hc hws
    cases rest with
    | nil =>
      simp only [joinSp] at hc
      rw [h t (by simp) c hc] at hws
      exact absurd hws (by simp)
    | cons t2 rest2 =>
      have hc2 : c ∈ t ++ ' ' :: joinSp (t2 :: rest2) := hc
      rcases List.mem_append.mp hc2 with hm | hm
      · rw [h t (by simp) c hm] at hws
        exact absurd hws (by simp)
      · rcases List.mem_cons.mp hm with hm2 | hm2
        · exact hm2
        · exact ih (fun u hu => h u (by simp [hu])) c hm2 hws

/-- C5 (amended): the portfolio text normalizer is a total function that
collapses every whitespace run to a single space and trims: a returned
string starts and ends with a non-whitespace character, has no two
adjacent whitespace characters, contains `' '` as its only whitespace,
and preserves the non-whitespace characters of the input; it returns
`none` exactly for the empty input, and returns the *empty string* (not
`none`, as the claim stated) for non-empty whitespace-only input. -/
theorem claim_C5_amended (s : List Char) :
    (PortfolioScraper.clean_text s = none ↔ s = []) ∧
    (∀ t, PortfolioScraper.clean_text s = some t →
      (∀ c, t.head? = some c → isWs c = false) ∧
      (∀ c, t.getLast? = some c → isWs c = false) ∧
      List.Chain' (fun a b => ¬(isWs a = true ∧ isWs b = true)) t ∧
      (∀ c ∈ t, isWs c = true → c = ' ') ∧
      t.filter (fun c => !isWs c) = s.filter (fun c => !isWs c) ∧
      (t = [] ↔ ∀ c ∈ s, isWs c = true)) := by
  have htok := splitGo_tokens s [] (by simp)
  constructor
  · unfold PortfolioScraper.clean_text
    split
    · rename_i hemp
      rw [List.isEmpty_iff] at hemp
      simp [hemp]
    · rename_i hemp
      rw [List.isEmpty_iff] at hemp
      simp [hemp]
  · intro t ht
    unfold PortfolioScraper.clean_text at ht
    split at ht
    · exact absurd ht (by simp)
    · injection ht with ht2
      subst ht2
      refine ⟨?_, ?_, ?_, ?_, ?_, ?_⟩
      · intro c hc
        obtain ⟨u, hu, hcu⟩ := joinSp_head (pySplitW s)
          (fun u hu => (htok u hu).1) c hc
        exact (htok u hu).2 c hcu
      · intro c hc
        obtain ⟨u, hu, hcu⟩ := joinSp_getLast (pySplitW s)
          (fun u hu => (htok u hu).1) c hc
        exact (htok u hu).2 c hcu
      · exact joinSp_chain (pySplitW s) htok
      · exact joinSp_ws_space (pySplitW s) (fun u hu => (htok u hu).2)
      · rw [joinSp_filter (pySplitW s) (fun u hu => (htok u hu).2)]
        have := splitGo_flatten s []
        simpa [pySplitW] using this
      · rw [joinSp_eq_nil (pySplitW s) (fun u hu => (htok u hu).1)]
        constructor
        · intro hnil
          have hfl := splitGo_flatten s []
          rw [show pySplitGo [] s = pySplitW s from rfl, hnil] at hfl
          simp only [List.flatten_nil, List.reverse_nil, List.nil_append] at hfl
          intro c hc
          have := List.filter_eq_nil_iff.mp hfl.symm c hc
          simpa using this
        · intro hall
          have hfl := splitGo_flatten s []
          have hfil : List.filter (fun c => !isWs c) s = [] := by
            rw [List.filter_eq_nil_iff]
            intro a ha
            simp [hall a ha]
          rw [show pySplitGo [] s = pySplitW s from rfl, hfil] at hfl
          simp only [List.reverse_nil, List.nil_append] at hfl
          cases hsp : pySplitW s with
          | nil => rfl
          | cons u rest =>
            have hu := (htok u (by rw [show pySplitGo [] s = pySplitW s from rfl, hsp]; simp)).1
            rw [hsp] at hfl
            simp only [List.flatten_cons] at hfl
            cases u with
            | nil => exact absurd rfl hu
            | cons a u' => simp at hfl

/-- C5 counterexample: on the whitespace-only input `" "` the normalizer
returns the empty string, not `none` as the claim states (`if not text`
only catches the empty input). -/
theorem claim_C5_counterexample :
    PortfolioScraper.clean_text " ".data = some [] ∧
    PortfolioScraper.clean_text " ".data ≠ none := by
  refine ⟨by rfl, ?_⟩
  intro h
  have h2 : PortfolioScraper.clean_text " ".data = some [] := by rfl
  rw [h] at h2
  exact absurd h2 (by simp)

/-- C5 witness: the normalization properties instantiated on the input
`"  a   b "`, whose cleaned form is `"a b"`. -/
theorem claim_C5_witness :
    PortfolioScraper.clean_text "  a   b ".data = some "a b".data ∧
    "a b".data.filter (fun c => !isWs c) =
      "  a   b ".data.filter (fun c => !isWs c) ∧
    (∀ c ∈ "a b".data, isWs c = true → c = ' ') := by
  have h := (claim_C5_amended "  a   b ".data).2 "a b".data (by rfl)
  exact ⟨by rfl, h.2.2.2.2.1, h.2.2.2.1⟩
